import Mathlib

/-!
Verification development for falco's `userspace/engine/evttype_index_ruleset.cpp`:
the event-type-indexed ruleset.  The data model (rules, filter wrappers, the
per-ruleset index `ruleset_filters`, the registry `evttype_index_ruleset`) and
every operation of the translation unit are embedded as executable Lean
definitions; predicates (`sinsp_filter::run`) are opaque handles evaluated
through an environment `Nat → Event → Bool`, and the run functions additionally
return the trace of entries whose predicate was evaluated, which lets the
theorems speak about which entries dispatch does and does not consult.
-/

set_option maxHeartbeats 1000000

namespace EvttypeIndex

/-- Event-type code `ppm_event_code::PPME_PLUGINEVENT_E` (from the event table). -/
def PPME_PLUGINEVENT_E : Nat := 322

/-- Event-type code `ppm_event_code::PPME_ASYNCEVENT_E` (from the event table). -/
def PPME_ASYNCEVENT_E : Nat := 402

/-- The constant `falco_common::syscall_source`. -/
def syscall_source : String := "syscall"

/-- Modelled from the spec: the Rule record (`falco_rule`, declared outside of
this translation unit) — name, tags, originating source; only the fields this
translation unit reads. -/
structure FalcoRule where
  name : String
  tags : List String
  source : String
deriving DecidableEq

/-- An event as this core sees it: `sinsp_evt` exposing `get_type()`. -/
structure Event where
  etype : Nat

/-- Modelled from the spec: `filter_wrapper` (declared in
`evttype_index_ruleset.h`) — one rule, its compiled predicate (an opaque handle
evaluated through an environment), and the two derived code sets.  `id` models
the identity of the `shared_ptr` allocation: distinct registrations never share
it, so structural equality of wrappers is pointer equality. -/
structure FilterWrapper where
  id : Nat
  rule : FalcoRule
  filter : Nat
  sc_codes : List Nat
  event_codes : List Nat
deriving DecidableEq

abbrev FilterWrapperList := List FilterWrapper

/-- Deduplicating insert, the semantics of `std::set::insert` and of
"`std::find` then `push_back` if absent": a no-op when the element is present. -/
def setIns {α : Type} [DecidableEq α] (s : List α) (x : α) : List α :=
  if x ∈ s then s else s ++ [x]

/-- Remove the first occurrence ("`std::find` then `erase`", or
`std::set::erase`): a no-op when the element is absent. -/
def setDel {α : Type} [DecidableEq α] : List α → α → List α
  | [], _ => []
  | y :: ys, x => if y = x then ys else y :: setDel ys x

/-- Embeds `ruleset_filters::add_wrapper_to_list`: push the wrapper unless present. -/
def add_wrapper_to_list (wrappers : FilterWrapperList) (wrap : FilterWrapper) :
    FilterWrapperList :=
  setIns wrappers wrap

/-- Embeds `ruleset_filters::remove_wrapper_from_list`: erase the wrapper if present. -/
def remove_wrapper_from_list (wrappers : FilterWrapperList) (wrap : FilterWrapper) :
    FilterWrapperList :=
  setDel wrappers wrap

/-- The bucket of a bucket vector at index `t` (an out-of-range index reads as
the empty bucket, mirroring that absent buckets hold no entries). -/
def bucketAt (bs : List FilterWrapperList) (t : Nat) : FilterWrapperList :=
  bs.getD t []

/-- One iteration of the `add_filter` bucket loop: grow
`m_filter_by_event_type` with empty buckets so that `etype` is addressable
(`resize(etype + 1)`), then dedup-insert the wrapper into bucket `etype`. -/
def growAddBucket (bs : List FilterWrapperList) (wrap : FilterWrapper)
    (etype : Nat) : List FilterWrapperList :=
  let bs2 := if bs.length ≤ etype then bs ++ List.replicate (etype + 1 - bs.length) [] else bs
  bs2.set etype (add_wrapper_to_list (bucketAt bs2 etype) wrap)

/-- One iteration of the `remove_filter` bucket loop: remove the wrapper from
bucket `etype` when that bucket exists. -/
def removeBucket (bs : List FilterWrapperList) (wrap : FilterWrapper)
    (etype : Nat) : List FilterWrapperList :=
  if etype < bs.length then
    bs.set etype (remove_wrapper_from_list (bucketAt bs etype) wrap)
  else bs

/-- Modelled from the spec: the per-ruleset index `ruleset_filters` (fields
declared in `evttype_index_ruleset.h`): the per-event-type bucket vector, the
catch-all list for wrappers with no specific event type, and the member set. -/
structure RulesetFilters where
  m_filter_by_event_type : List FilterWrapperList
  m_filter_all_event_types : FilterWrapperList
  m_filters : FilterWrapperList
deriving DecidableEq

/-- A freshly constructed `ruleset_filters`. -/
def emptyRS : RulesetFilters :=
  { m_filter_by_event_type := [], m_filter_all_event_types := [], m_filters := [] }

/-- Embeds `ruleset_filters::add_filter`. -/
def RulesetFilters.add_filter (rs : RulesetFilters) (wrap : FilterWrapper) :
    RulesetFilters :=
  let rs2 :=
    if wrap.event_codes = [] then
      { rs with m_filter_all_event_types :=
          add_wrapper_to_list rs.m_filter_all_event_types wrap }
    else
      { rs with m_filter_by_event_type :=
          (wrap.event_codes.foldl (fun bs e => growAddBucket bs wrap e)
            rs.m_filter_by_event_type) }
  { rs2 with m_filters := setIns rs2.m_filters wrap }

/-- Embeds `ruleset_filters::remove_filter`. -/
def RulesetFilters.remove_filter (rs : RulesetFilters) (wrap : FilterWrapper) :
    RulesetFilters :=
  let rs2 :=
    if wrap.event_codes = [] then
      { rs with m_filter_all_event_types :=
          remove_wrapper_from_list rs.m_filter_all_event_types wrap }
    else
      { rs with m_filter_by_event_type :=
          (wrap.event_codes.foldl (fun bs e => removeBucket bs wrap e)
            rs.m_filter_by_event_type) }
  { rs2 with m_filters := setDel rs2.m_filters wrap }

/-- Embeds `ruleset_filters::num_filters`. -/
def RulesetFilters.num_filters (rs : RulesetFilters) : Nat :=
  rs.m_filters.length

/-- The single-match loop body (shared by the bucket and catch-all phases of
`ruleset_filters::run(evt, match)`): evaluate each predicate in order, stop at
the first `true`.  Besides the result, return the trace of entries whose
predicate was evaluated. -/
def runFirst (env : Nat → Event → Bool) (evt : Event) :
    FilterWrapperList → Option FalcoRule × FilterWrapperList
  | [] => (none, [])
  | w :: ws =>
    if env w.filter evt then (some w.rule, [w])
    else
      let r := runFirst env evt ws
      (r.1, w :: r.2)

/-- Embeds `ruleset_filters::run(sinsp_evt*, falco_rule&)`, the single-match form.
`some r` means the output reference was written with `r`; `none` means it was
left untouched.  The second component is the trace of evaluated entries. -/
def RulesetFilters.run_single (env : Nat → Event → Bool) (rs : RulesetFilters)
    (evt : Event) : Option FalcoRule × FilterWrapperList :=
  let br :=
    if evt.etype < rs.m_filter_by_event_type.length then
      runFirst env evt (bucketAt rs.m_filter_by_event_type evt.etype)
    else (none, [])
  match br.1 with
  | some r => (some r, br.2)
  | none =>
    let cr := runFirst env evt rs.m_filter_all_event_types
    (cr.1, br.2 ++ cr.2)

/-- The all-matches loop body (shared by the bucket and catch-all phases of
`ruleset_filters::run(evt, matches)`): evaluate every predicate, appending the
rule of each match to the accumulated output and tracking `match_found`; also
return the trace of evaluated entries. -/
def runAllLoop (env : Nat → Event → Bool) (evt : Event) :
    FilterWrapperList → List FalcoRule → Bool → Bool × List FalcoRule × FilterWrapperList
  | [], matchList, found => (found, matchList, [])
  | w :: ws, matchList, found =>
    if env w.filter evt then
      let r := runAllLoop env evt ws (matchList ++ [w.rule]) true
      (r.1, r.2.1, w :: r.2.2)
    else
      let r := runAllLoop env evt ws matchList found
      (r.1, r.2.1, w :: r.2.2)

/-- Embeds `ruleset_filters::run(sinsp_evt*, std::vector<falco_rule>&)`, the
all-matches form: collect every match from the event-type bucket; if any
matched, return immediately; only otherwise consult the catch-all list.
Returns (`match_found`, final output vector, trace of evaluated entries). -/
def RulesetFilters.run_multi (env : Nat → Event → Bool) (rs : RulesetFilters)
    (evt : Event) (matchList : List FalcoRule) :
    Bool × List FalcoRule × FilterWrapperList :=
  let br :=
    if evt.etype < rs.m_filter_by_event_type.length then
      runAllLoop env evt (bucketAt rs.m_filter_by_event_type evt.etype) matchList false
    else (false, matchList, [])
  if br.1 then br
  else
    let cr := runAllLoop env evt rs.m_filter_all_event_types br.2.1 br.1
    (cr.1, cr.2.1, br.2.2 ++ cr.2.2)

/-- The match-mode enum `evttype_index_ruleset::match_type`
(declared in the header, listed in the `enable_disable` switch). -/
inductive match_type
  | exact
  | substring
  | wildcard
deriving DecidableEq

/-- Embeds `std::string::find` over the character sequence: the smallest position at
which `pat` occurs as a contiguous substring of `hay`, `none` standing for
`std::string::npos`.  Note `hay.find("") = 0`. -/
def findSub (hay pat : List Char) : Option Nat :=
  if pat.isPrefixOf hay then some 0
  else
    match hay with
    | [] => none
    | _ :: t => (findSub t pat).map (· + 1)

/-- Embeds `name.find(pattern)` on the string level. -/
def strFind (hay pat : String) : Option Nat :=
  findSub hay.toList pat.toList

/-- The per-entry pattern test of `evttype_index_ruleset::enable_disable`
(the `switch(match)` body).  The wildcard matcher `falco::utils::matches_wildcard`
is an external collaborator, passed in as `wc`. -/
def ruleMatches (wc : String → String → Bool) (pattern : String)
    (m : match_type) (name : String) : Bool :=
  match m with
  | .exact =>
    decide (pattern = "") ||
      (decide (strFind name pattern = some 0) &&
        decide (pattern.toList.length = name.toList.length))
  | .substring =>
    decide (pattern = "") || decide (strFind name pattern ≠ none)
  | .wildcard => wc pattern name

/-- Non-emptiness of `std::set_intersection` of two string sets
(`enable_disable_tags` loop body): some input tag also tags the rule. -/
def tagsIntersect (tags ruleTags : List String) : Bool :=
  tags.any (fun t => decide (t ∈ ruleTags))

/-- Modelled from the spec: the registry `evttype_index_ruleset` (fields
declared in `evttype_index_ruleset.h`): the global entry set and the growable
per-ruleset-id vector of indexes.  `next_id` models the allocator: the identity
given to the next `make_shared<filter_wrapper>`. -/
structure EvttypeIndexRuleset where
  m_filters : FilterWrapperList
  m_rulesets : List RulesetFilters
  next_id : Nat
deriving DecidableEq

/-- The `while(m_rulesets.size() < ruleset_id + 1) emplace_back(fresh)` growth
loop shared by the mutating registry operations. -/
def growRulesets (l : List RulesetFilters) (ruleset_id : Nat) : List RulesetFilters :=
  l ++ List.replicate (ruleset_id + 1 - l.length) emptyRS

/-- Embeds `evttype_index_ruleset::add`: derive the code sets (for syscall-source
rules from the condition AST via the external analyzer, whose outcome — it may
throw — is the `analyze` argument; for any other source the fixed plugin-event
singleton), always insert the async-event code, and insert the wrapper into the
global set.  A thrown `sinsp_exception` is re-signalled (`falco_exception`)
carrying the same message, before any mutation of the registry. -/
def EvttypeIndexRuleset.add (st : EvttypeIndexRuleset) (rule : FalcoRule)
    (filt : Nat) (analyze : Except String (List Nat × List Nat)) :
    EvttypeIndexRuleset × Option String :=
  if rule.source = syscall_source then
    match analyze with
    | .error e => (st, some e)
    | .ok (sc, ev) =>
      let wrap : FilterWrapper :=
        { id := st.next_id, rule := rule, filter := filt,
          sc_codes := sc, event_codes := setIns ev PPME_ASYNCEVENT_E }
      ({ st with m_filters := setIns st.m_filters wrap,
                 next_id := st.next_id + 1 }, none)
  else
    let wrap : FilterWrapper :=
      { id := st.next_id, rule := rule, filter := filt,
        sc_codes := [],
        event_codes := setIns [PPME_PLUGINEVENT_E] PPME_ASYNCEVENT_E }
    ({ st with m_filters := setIns st.m_filters wrap,
               next_id := st.next_id + 1 }, none)

/-- Embeds `evttype_index_ruleset::clear`: replace every index with a fresh empty one
and empty the global set. -/
def EvttypeIndexRuleset.clear (st : EvttypeIndexRuleset) : EvttypeIndexRuleset :=
  { st with m_rulesets := st.m_rulesets.map (fun _ => emptyRS), m_filters := [] }

/-- Embeds `evttype_index_ruleset::enable_disable`: grow the ruleset vector, then for
every global entry whose rule name satisfies the pattern under the match mode,
add it to (or remove it from) the index of `ruleset_id`. -/
def EvttypeIndexRuleset.enable_disable (wc : String → String → Bool)
    (st : EvttypeIndexRuleset) (pattern : String) (m : match_type)
    (enabled : Bool) (ruleset_id : Nat) : EvttypeIndexRuleset :=
  let rulesets := growRulesets st.m_rulesets ruleset_id
  let rulesets := st.m_filters.foldl
    (fun rss w =>
      if ruleMatches wc pattern m w.rule.name then
        rss.set ruleset_id
          (if enabled then (rss.getD ruleset_id emptyRS).add_filter w
           else (rss.getD ruleset_id emptyRS).remove_filter w)
      else rss)
    rulesets
  { st with m_rulesets := rulesets }

/-- Embeds `evttype_index_ruleset::enable_disable_tags`: grow the ruleset vector, then
for every global entry whose rule's tag set meets the input tag set, add it to
(or remove it from) the index of `ruleset_id`. -/
def EvttypeIndexRuleset.enable_disable_tags (st : EvttypeIndexRuleset)
    (tags : List String) (enabled : Bool) (ruleset_id : Nat) :
    EvttypeIndexRuleset :=
  let rulesets := growRulesets st.m_rulesets ruleset_id
  let rulesets := st.m_filters.foldl
    (fun rss w =>
      if tagsIntersect tags w.rule.tags then
        rss.set ruleset_id
          (if enabled then (rss.getD ruleset_id emptyRS).add_filter w
           else (rss.getD ruleset_id emptyRS).remove_filter w)
      else rss)
    rulesets
  { st with m_rulesets := rulesets }

/-- Embeds `evttype_index_ruleset::enabled_count`: grow, then report `num_filters`. -/
def EvttypeIndexRuleset.enabled_count (st : EvttypeIndexRuleset)
    (ruleset_id : Nat) : EvttypeIndexRuleset × Nat :=
  let rulesets := growRulesets st.m_rulesets ruleset_id
  ({ st with m_rulesets := rulesets },
    (rulesets.getD ruleset_id emptyRS).num_filters)

/-- Embeds `evttype_index_ruleset::run(evt, match, ruleset_id)`: out-of-range ids
report no match without any mutation; otherwise delegate.  The result carries
the (unchanged) registry, the `bool` result, and the output slot, which keeps
its input value `match0` when nothing matched. -/
def EvttypeIndexRuleset.run_single (env : Nat → Event → Bool)
    (st : EvttypeIndexRuleset) (evt : Event) (ruleset_id : Nat)
    (match0 : FalcoRule) : EvttypeIndexRuleset × Bool × FalcoRule :=
  if st.m_rulesets.length < ruleset_id + 1 then (st, false, match0)
  else
    match ((st.m_rulesets.getD ruleset_id emptyRS).run_single env evt).1 with
    | some r => (st, true, r)
    | none => (st, false, match0)

/-- Embeds `evttype_index_ruleset::run(evt, matches, ruleset_id)`: out-of-range ids
report no match leaving the output vector untouched; otherwise delegate. -/
def EvttypeIndexRuleset.run_multi (env : Nat → Event → Bool)
    (st : EvttypeIndexRuleset) (evt : Event) (ruleset_id : Nat)
    (matchList : List FalcoRule) : EvttypeIndexRuleset × Bool × List FalcoRule :=
  if st.m_rulesets.length < ruleset_id + 1 then (st, false, matchList)
  else
    let r := (st.m_rulesets.getD ruleset_id emptyRS).run_multi env evt matchList
    (st, r.1, r.2.1)

/-- Derived from the spec, §4.3 single-match algorithm, for comparison with the
code-derived `RulesetFilters.run_single`: scan the event's bucket in order, the
first true predicate yields its rule and stops everything; only if the bucket
yielded nothing scan catch-all likewise; otherwise no match.  The trace lists
the bucket entries up to and including the first match, then (only in the
no-bucket-match case) the catch-all entries up to and including the first
match. -/
def runOneSpec (env : Nat → Event → Bool) (evt : Event)
    (bucket catchAll : FilterWrapperList) : Option FalcoRule × FilterWrapperList :=
  match bucket.find? (fun w => env w.filter evt) with
  | some w =>
    (some w.rule, bucket.takeWhile (fun x => !(env x.filter evt)) ++ [w])
  | none =>
    match catchAll.find? (fun w => env w.filter evt) with
    | some w =>
      (some w.rule,
        bucket ++ (catchAll.takeWhile (fun x => !(env x.filter evt)) ++ [w]))
    | none => (none, bucket ++ catchAll)

/-! ### Helper lemmas: deduplicating insert and erase -/

theorem mem_setIns {α : Type} [DecidableEq α] (s : List α) (x y : α) :
    y ∈ setIns s x ↔ y ∈ s ∨ y = x := by
  unfold setIns
  by_cases h : x ∈ s
  · simp only [if_pos h]
    exact ⟨Or.inl, fun hy => hy.elim id (fun e => e ▸ h)⟩
  · simp [if_neg h, List.mem_append]

theorem setIns_eq_of_mem {α : Type} [DecidableEq α] {s : List α} {x : α}
    (h : x ∈ s) : setIns s x = s := by
  simp [setIns, h]

theorem mem_setIns_self {α : Type} [DecidableEq α] (s : List α) (x : α) :
    x ∈ setIns s x :=
  (mem_setIns s x x).2 (Or.inr rfl)

theorem setIns_nodup {α : Type} [DecidableEq α] {s : List α} (h : s.Nodup)
    (x : α) : (setIns s x).Nodup := by
  unfold setIns
  split
  · exact h
  · next hx => simp [List.nodup_append, h, hx]

theorem setDel_of_not_mem {α : Type} [DecidableEq α] {s : List α} {x : α}
    (h : x ∉ s) : setDel s x = s := by
  induction s with
  | nil => rfl
  | cons a t ih =>
    have hax : a ≠ x := fun e => h (e ▸ List.mem_cons_self a t)
    have hxt : x ∉ t := fun e => h (List.mem_cons_of_mem a e)
    simp [setDel, hax, ih hxt]

theorem mem_of_mem_setDel {α : Type} [DecidableEq α] {s : List α} {x y : α}
    (h : y ∈ setDel s x) : y ∈ s := by
  induction s with
  | nil => simpa [setDel] using h
  | cons a t ih =>
    by_cases hax : a = x
    · simp only [setDel, if_pos hax] at h
      exact List.mem_cons_of_mem a h
    · simp only [setDel, if_neg hax, List.mem_cons] at h
      rcases h with h | h
      · exact h ▸ List.mem_cons_self a t
      · exact List.mem_cons_of_mem a (ih h)

theorem mem_setDel_of_ne {α : Type} [DecidableEq α] {s : List α} {x y : α}
    (hne : y ≠ x) : y ∈ setDel s x ↔ y ∈ s := by
  induction s with
  | nil => simp [setDel]
  | cons a t ih =>
    by_cases hax : a = x
    · subst hax
      simp only [setDel, if_pos rfl, List.mem_cons]
      exact ⟨Or.inr, fun h => h.elim (fun e => absurd e hne) id⟩
    · simp [setDel, hax, List.mem_cons, ih]

theorem setDel_nodup {α : Type} [DecidableEq α] {s : List α} (h : s.Nodup)
    (x : α) : (setDel s x).Nodup := by
  induction s with
  | nil => simpa [setDel]
  | cons a t ih =>
    rcases List.nodup_cons.1 h with ⟨hat, ht⟩
    by_cases hax : a = x
    · simpa [setDel, hax] using ht
    · rw [show setDel (a :: t) x = a :: setDel t x from by simp [setDel, hax]]
      exact List.nodup_cons.2 ⟨fun hmem => hat (mem_of_mem_setDel hmem), ih ht⟩

theorem not_mem_setDel_self {α : Type} [DecidableEq α] {s : List α}
    (h : s.Nodup) (x : α) : x ∉ setDel s x := by
  induction s with
  | nil => simp [setDel]
  | cons a t ih =>
    rcases List.nodup_cons.1 h with ⟨hat, ht⟩
    by_cases hax : a = x
    · subst hax
      simpa [setDel] using hat
    · simp only [setDel, if_neg hax, List.mem_cons]
      rintro (e | hmem)
      · exact hax e.symm
      · exact ih ht hmem

theorem setDel_idem {α : Type} [DecidableEq α] {s : List α} (h : s.Nodup)
    (x : α) : setDel (setDel s x) x = setDel s x :=
  setDel_of_not_mem (not_mem_setDel_self h x)

theorem addW_mem (l : FilterWrapperList) (w : FilterWrapper) :
    w ∈ add_wrapper_to_list l w :=
  mem_setIns_self l w

theorem addW_idem (l : FilterWrapperList) (w : FilterWrapper) :
    add_wrapper_to_list (add_wrapper_to_list l w) w = add_wrapper_to_list l w :=
  setIns_eq_of_mem (addW_mem l w)

/-! ### Helper lemmas: `getD`, `set`, growth -/

theorem getD_set_self {α : Type} (l : List α) (i : Nat) (v d : α)
    (h : i < l.length) : (l.set i v).getD i d = v := by
  induction l generalizing i with
  | nil => simp at h
  | cons a t ih =>
    cases i with
    | zero => rfl
    | succ n =>
      have hstep : (a :: t).set (n + 1) v = a :: t.set n v := rfl
      rw [hstep, List.getD_cons_succ]
      exact ih n (Nat.lt_of_succ_lt_succ h)

theorem getD_set_ne {α : Type} (l : List α) (i j : Nat) (v d : α)
    (h : j ≠ i) : (l.set i v).getD j d = l.getD j d := by
  induction l generalizing i j with
  | nil => rfl
  | cons a t ih =>
    cases i with
    | zero =>
      cases j with
      | zero => exact absurd rfl h
      | succ m => rfl
    | succ n =>
      cases j with
      | zero => rfl
      | succ m =>
        have hstep : (a :: t).set (n + 1) v = a :: t.set n v := rfl
        rw [hstep, List.getD_cons_succ, List.getD_cons_succ]
        exact ih n m (fun e => h (by rw [e]))

theorem set_getD_refl {α : Type} (l : List α) (i : Nat) (d : α)
    (h : i < l.length) : l.set i (l.getD i d) = l := by
  induction l generalizing i with
  | nil => rfl
  | cons a t ih =>
    cases i with
    | zero => rfl
    | succ n =>
      have : (a :: t).getD (n + 1) d = t.getD n d := List.getD_cons_succ
      rw [this]
      show a :: t.set n (t.getD n d) = a :: t
      rw [ih n (Nat.lt_of_succ_lt_succ h)]

theorem getD_replicate_self {α : Type} (k t : Nat) (d : α) :
    (List.replicate k d).getD t d = d := by
  induction k generalizing t with
  | zero => rfl
  | succ n ih =>
    cases t with
    | zero => rfl
    | succ m => simpa [List.replicate_succ, List.getD_cons_succ] using ih m

theorem getD_append_rep {α : Type} (l : List α) (k t : Nat) (d : α) :
    (l ++ List.replicate k d).getD t d = l.getD t d := by
  rcases Nat.lt_or_ge t l.length with h | h
  · exact List.getD_append _ _ _ _ h
  · rw [List.getD_append_right _ _ _ _ h, List.getD_eq_default _ _ h,
      getD_replicate_self]

theorem getD_map_const {α β : Type} (l : List α) (i : Nat) (c : β) :
    (l.map (fun _ => c)).getD i c = c := by
  induction l generalizing i with
  | nil => rfl
  | cons a t ih =>
    cases i with
    | zero => rfl
    | succ n => simpa [List.getD_cons_succ] using ih n

theorem getD_mem_or_eq {α : Type} (l : List α) (i : Nat) (d : α) :
    l.getD i d ∈ l ∨ l.getD i d = d := by
  rcases Nat.lt_or_ge i l.length with h | h
  · left
    rw [List.getD_eq_getElem _ _ h]
    exact List.getElem_mem h
  · right
    exact List.getD_eq_default _ _ h

/-! ### Pointwise behavior of the bucket loops -/

theorem bucketAt_growAddBucket (bs : List FilterWrapperList)
    (w : FilterWrapper) (e t : Nat) :
    bucketAt (growAddBucket bs w e) t =
      if t = e then add_wrapper_to_list (bucketAt bs t) w else bucketAt bs t := by
  unfold growAddBucket
  by_cases hle : bs.length ≤ e
  · simp only [if_pos hle]
    have hlen : e < (bs ++ List.replicate (e + 1 - bs.length) ([] : FilterWrapperList)).length := by
      simp only [List.length_append, List.length_replicate]
      omega
    have hsame : ∀ u, bucketAt (bs ++ List.replicate (e + 1 - bs.length) ([] : FilterWrapperList)) u = bucketAt bs u :=
      fun u => getD_append_rep ..
    by_cases ht : t = e
    · subst ht
      unfold bucketAt
      rw [getD_set_self _ _ _ _ hlen, if_pos rfl]
      show add_wrapper_to_list (bucketAt _ t) w = _
      rw [hsame]
      rfl
    · unfold bucketAt
      rw [getD_set_ne _ _ _ _ _ ht, if_neg ht]
      exact hsame t
  · simp only [if_neg hle]
    have hlen : e < bs.length := Nat.lt_of_not_le hle
    by_cases ht : t = e
    · subst ht
      unfold bucketAt
      rw [getD_set_self _ _ _ _ hlen, if_pos rfl]
    · unfold bucketAt
      rw [getD_set_ne _ _ _ _ _ ht, if_neg ht]

theorem bucketAt_removeBucket (bs : List FilterWrapperList)
    (w : FilterWrapper) (e t : Nat) :
    bucketAt (removeBucket bs w e) t =
      if t = e then remove_wrapper_from_list (bucketAt bs t) w
      else bucketAt bs t := by
  unfold removeBucket
  by_cases hlt : e < bs.length
  · simp only [if_pos hlt]
    by_cases ht : t = e
    · subst ht
      unfold bucketAt
      rw [getD_set_self _ _ _ _ hlt, if_pos rfl]
    · unfold bucketAt
      rw [getD_set_ne _ _ _ _ _ ht, if_neg ht]
  · simp only [if_neg hlt]
    by_cases ht : t = e
    · subst ht
      have hempty : bucketAt bs t = [] :=
        List.getD_eq_default _ _ (Nat.le_of_not_lt hlt)
      rw [if_pos rfl, hempty]
      rfl
    · rw [if_neg ht]

theorem bucketAt_foldl_growAdd (codes : List Nat) (bs : List FilterWrapperList)
    (w : FilterWrapper) (t : Nat) :
    bucketAt (codes.foldl (fun b e => growAddBucket b w e) bs) t =
      if t ∈ codes then add_wrapper_to_list (bucketAt bs t) w
      else bucketAt bs t := by
  induction codes generalizing bs with
  | nil => simp
  | cons e rest ih =>
    simp only [List.foldl_cons]
    rw [ih, bucketAt_growAddBucket]
    by_cases ht : t = e
    · subst ht
      by_cases hr : t ∈ rest
      · simp [hr, addW_idem]
      · simp [hr]
    · by_cases hr : t ∈ rest
      · simp [ht, hr]
      · simp [ht, hr, List.mem_cons]

theorem removeW_nodup {l : FilterWrapperList} (h : l.Nodup) (w : FilterWrapper) :
    (remove_wrapper_from_list l w).Nodup :=
  setDel_nodup h w

theorem bucketAt_foldl_remove (codes : List Nat) (bs : List FilterWrapperList)
    (w : FilterWrapper) (t : Nat) (h : (bucketAt bs t).Nodup) :
    bucketAt (codes.foldl (fun b e => removeBucket b w e) bs) t =
      if t ∈ codes then remove_wrapper_from_list (bucketAt bs t) w
      else bucketAt bs t := by
  induction codes generalizing bs with
  | nil => simp
  | cons e rest ih =>
    simp only [List.foldl_cons]
    have hb := bucketAt_removeBucket bs w e t
    have hnd : (bucketAt (removeBucket bs w e) t).Nodup := by
      rw [hb]
      split
      · exact removeW_nodup h w
      · exact h
    rw [ih _ hnd, hb]
    by_cases ht : t = e
    · subst ht
      by_cases hr : t ∈ rest
      · simp [hr, remove_wrapper_from_list, setDel_idem h]
      · simp [hr]
    · by_cases hr : t ∈ rest
      · simp [ht, hr]
      · simp [ht, hr, List.mem_cons]

/-! ### Field characterizations of `add_filter` / `remove_filter` -/

theorem mem_addW (l : FilterWrapperList) (w y : FilterWrapper) :
    y ∈ add_wrapper_to_list l w ↔ y ∈ l ∨ y = w :=
  mem_setIns l w y

theorem addW_nodup {l : FilterWrapperList} (h : l.Nodup) (w : FilterWrapper) :
    (add_wrapper_to_list l w).Nodup :=
  setIns_nodup h w

theorem mem_of_mem_removeW {l : FilterWrapperList} {w y : FilterWrapper}
    (h : y ∈ remove_wrapper_from_list l w) : y ∈ l :=
  mem_of_mem_setDel h

theorem mem_removeW_of_ne {l : FilterWrapperList} {w y : FilterWrapper}
    (h : y ≠ w) : y ∈ remove_wrapper_from_list l w ↔ y ∈ l :=
  mem_setDel_of_ne h

theorem add_filter_m_filters (rs : RulesetFilters) (w : FilterWrapper) :
    (rs.add_filter w).m_filters = setIns rs.m_filters w := by
  simp only [RulesetFilters.add_filter]
  split <;> rfl

theorem add_filter_catch (rs : RulesetFilters) (w : FilterWrapper) :
    (rs.add_filter w).m_filter_all_event_types =
      if w.event_codes = [] then
        add_wrapper_to_list rs.m_filter_all_event_types w
      else rs.m_filter_all_event_types := by
  simp only [RulesetFilters.add_filter]
  split <;> simp [*]

theorem add_filter_bucketAt (rs : RulesetFilters) (w : FilterWrapper) (t : Nat) :
    bucketAt (rs.add_filter w).m_filter_by_event_type t =
      if w.event_codes = [] then bucketAt rs.m_filter_by_event_type t
      else if t ∈ w.event_codes then
        add_wrapper_to_list (bucketAt rs.m_filter_by_event_type t) w
      else bucketAt rs.m_filter_by_event_type t := by
  by_cases h : w.event_codes = []
  · simp only [RulesetFilters.add_filter, if_pos h]
  · simp only [RulesetFilters.add_filter, if_neg h]
    exact bucketAt_foldl_growAdd _ _ _ _

theorem remove_filter_m_filters (rs : RulesetFilters) (w : FilterWrapper) :
    (rs.remove_filter w).m_filters = setDel rs.m_filters w := by
  simp only [RulesetFilters.remove_filter]
  split <;> rfl

theorem remove_filter_catch (rs : RulesetFilters) (w : FilterWrapper) :
    (rs.remove_filter w).m_filter_all_event_types =
      if w.event_codes = [] then
        remove_wrapper_from_list rs.m_filter_all_event_types w
      else rs.m_filter_all_event_types := by
  simp only [RulesetFilters.remove_filter]
  split <;> simp [*]

theorem remove_filter_bucketAt (rs : RulesetFilters) (w : FilterWrapper)
    (t : Nat) (hnd : (bucketAt rs.m_filter_by_event_type t).Nodup) :
    bucketAt (rs.remove_filter w).m_filter_by_event_type t =
      if w.event_codes = [] then bucketAt rs.m_filter_by_event_type t
      else if t ∈ w.event_codes then
        remove_wrapper_from_list (bucketAt rs.m_filter_by_event_type t) w
      else bucketAt rs.m_filter_by_event_type t := by
  by_cases h : w.event_codes = []
  · simp only [RulesetFilters.remove_filter, if_pos h]
  · simp only [RulesetFilters.remove_filter, if_neg h]
    exact bucketAt_foldl_remove _ _ _ _ hnd

/-! ### The RulesetIndex invariant -/

/-- The RulesetIndex invariant of spec §3: every bucket entry lists that bucket
in its `event_codes`; a member with code set `{t, …}` sits in every one of its
buckets; catch-all entries are exactly the empty-sentinel ones; membership in
`m_filters` coincides with appearing in some bucket or in catch-all; and no
sequence holds duplicates. -/
structure WfIndex (rs : RulesetFilters) : Prop where
  bucket_codes : ∀ t w, w ∈ bucketAt rs.m_filter_by_event_type t →
    t ∈ w.event_codes
  bucket_complete : ∀ w, w ∈ rs.m_filters → ∀ t ∈ w.event_codes,
    w ∈ bucketAt rs.m_filter_by_event_type t
  catch_codes : ∀ w ∈ rs.m_filter_all_event_types, w.event_codes = []
  members_iff : ∀ w, w ∈ rs.m_filters ↔
    ((∃ t, w ∈ bucketAt rs.m_filter_by_event_type t) ∨
      w ∈ rs.m_filter_all_event_types)
  bucket_nodup : ∀ t, (bucketAt rs.m_filter_by_event_type t).Nodup
  catch_nodup : rs.m_filter_all_event_types.Nodup
  members_nodup : rs.m_filters.Nodup

theorem wfIndex_empty : WfIndex emptyRS := by
  refine ⟨?_, ?_, ?_, ?_, ?_, ?_, ?_⟩ <;> simp [emptyRS, bucketAt]

theorem wfIndex_add_filter {rs : RulesetFilters} (hwf : WfIndex rs)
    (w : FilterWrapper) : WfIndex (rs.add_filter w) := by
  have hf := add_filter_m_filters rs w
  have hc := add_filter_catch rs w
  have hb := fun t => add_filter_bucketAt rs w t
  by_cases hempty : w.event_codes = []
  · simp only [if_pos hempty] at hc hb
    refine ⟨?_, ?_, ?_, ?_, ?_, ?_, ?_⟩
    · intro t x hx
      rw [hb t] at hx
      exact hwf.bucket_codes t x hx
    · intro x hx t ht
      rw [hf] at hx
      rcases (mem_setIns _ _ _).1 hx with hx | rfl
      · rw [hb t]
        exact hwf.bucket_complete x hx t ht
      · rw [hempty] at ht
        simp at ht
    · intro x hx
      rw [hc] at hx
      rcases (mem_addW _ _ _).1 hx with hx | rfl
      · exact hwf.catch_codes x hx
      · exact hempty
    · intro x
      rw [hf, hc]
      rw [mem_setIns, mem_addW, hwf.members_iff x]
      constructor
      · rintro ((hbk | hca) | rfl)
        · exact Or.inl (by
            rcases hbk with ⟨t, hmem⟩
            exact ⟨t, by rw [hb t]; exact hmem⟩)
        · exact Or.inr (Or.inl hca)
        · exact Or.inr (Or.inr rfl)
      · rintro (⟨t, hmem⟩ | (hca | rfl))
        · rw [hb t] at hmem
          exact Or.inl (Or.inl ⟨t, hmem⟩)
        · exact Or.inl (Or.inr hca)
        · exact Or.inr rfl
    · intro t
      rw [hb t]
      exact hwf.bucket_nodup t
    · rw [hc]
      exact addW_nodup hwf.catch_nodup w
    · rw [hf]
      exact setIns_nodup hwf.members_nodup w
  · simp only [if_neg hempty] at hc hb
    refine ⟨?_, ?_, ?_, ?_, ?_, ?_, ?_⟩
    · intro t x hx
      rw [hb t] at hx
      by_cases ht : t ∈ w.event_codes
      · rw [if_pos ht] at hx
        rcases (mem_addW _ _ _).1 hx with hx | rfl
        · exact hwf.bucket_codes t x hx
        · exact ht
      · rw [if_neg ht] at hx
        exact hwf.bucket_codes t x hx
    · intro x hx t ht
      rw [hf] at hx
      rw [hb t]
      rcases (mem_setIns _ _ _).1 hx with hx | rfl
      · by_cases htw : t ∈ w.event_codes
        · rw [if_pos htw]
          exact (mem_addW _ _ _).2 (Or.inl (hwf.bucket_complete x hx t ht))
        · rw [if_neg htw]
          exact hwf.bucket_complete x hx t ht
      · rw [if_pos ht]
        exact addW_mem _ _
    · intro x hx
      rw [hc] at hx
      exact hwf.catch_codes x hx
    · intro x
      rw [hf, hc, mem_setIns, hwf.members_iff x]
      constructor
      · rintro ((hbk | hca) | rfl)
        · rcases hbk with ⟨t, hmem⟩
          refine Or.inl ⟨t, ?_⟩
          rw [hb t]
          split
          · exact (mem_addW _ _ _).2 (Or.inl hmem)
          · exact hmem
        · exact Or.inr hca
        · rcases List.exists_mem_of_ne_nil _ hempty with ⟨t, ht⟩
          refine Or.inl ⟨t, ?_⟩
          rw [hb t, if_pos ht]
          exact addW_mem _ _
      · rintro (⟨t, hmem⟩ | hca)
        · rw [hb t] at hmem
          by_cases htw : t ∈ w.event_codes
          · rw [if_pos htw] at hmem
            rcases (mem_addW _ _ _).1 hmem with hmem | rfl
            · exact Or.inl (Or.inl ⟨t, hmem⟩)
            · exact Or.inr rfl
          · rw [if_neg htw] at hmem
            exact Or.inl (Or.inl ⟨t, hmem⟩)
        · exact Or.inl (Or.inr hca)
    · intro t
      rw [hb t]
      split
      · exact addW_nodup (hwf.bucket_nodup t) w
      · exact hwf.bucket_nodup t
    · rw [hc]
      exact hwf.catch_nodup
    · rw [hf]
      exact setIns_nodup hwf.members_nodup w

theorem wfIndex_remove_filter {rs : RulesetFilters} (hwf : WfIndex rs)
    (w : FilterWrapper) : WfIndex (rs.remove_filter w) := by
  have hf := remove_filter_m_filters rs w
  have hc := remove_filter_catch rs w
  have hb := fun t => remove_filter_bucketAt rs w t (hwf.bucket_nodup t)
  by_cases hempty : w.event_codes = []
  · simp only [if_pos hempty] at hc hb
    have hnotbk : ∀ t, w ∉ bucketAt rs.m_filter_by_event_type t := by
      intro t hmem
      have := hwf.bucket_codes t w hmem
      rw [hempty] at this
      simp at this
    refine ⟨?_, ?_, ?_, ?_, ?_, ?_, ?_⟩
    · intro t x hx
      rw [hb t] at hx
      exact hwf.bucket_codes t x hx
    · intro x hx t ht
      rw [hf] at hx
      rw [hb t]
      exact hwf.bucket_complete x (mem_of_mem_setDel hx) t ht
    · intro x hx
      rw [hc] at hx
      exact hwf.catch_codes x (mem_of_mem_removeW hx)
    · intro x
      rw [hf, hc]
      by_cases hxw : x = w
      · subst hxw
        constructor
        · intro hx
          exact absurd hx (not_mem_setDel_self hwf.members_nodup x)
        · rintro (⟨t, hmem⟩ | hca)
          · rw [hb t] at hmem
            exact absurd hmem (hnotbk t)
          · exact absurd hca (not_mem_setDel_self hwf.catch_nodup x)
      · rw [mem_setDel_of_ne hxw, hwf.members_iff x]
        constructor
        · rintro (⟨t, hmem⟩ | hca)
          · refine Or.inl ⟨t, ?_⟩
            rw [hb t]
            exact hmem
          · exact Or.inr ((mem_removeW_of_ne hxw).2 hca)
        · rintro (⟨t, hmem⟩ | hca)
          · rw [hb t] at hmem
            exact Or.inl ⟨t, hmem⟩
          · exact Or.inr (mem_of_mem_removeW hca)
    · intro t
      rw [hb t]
      exact hwf.bucket_nodup t
    · rw [hc]
      exact removeW_nodup hwf.catch_nodup w
    · rw [hf]
      exact setDel_nodup hwf.members_nodup w
  · simp only [if_neg hempty] at hc hb
    have hnotca : w ∉ rs.m_filter_all_event_types := by
      intro hmem
      exact hempty (hwf.catch_codes w hmem)
    refine ⟨?_, ?_, ?_, ?_, ?_, ?_, ?_⟩
    · intro t x hx
      rw [hb t] at hx
      by_cases htw : t ∈ w.event_codes
      · rw [if_pos htw] at hx
        exact hwf.bucket_codes t x (mem_of_mem_removeW hx)
      · rw [if_neg htw] at hx
        exact hwf.bucket_codes t x hx
    · intro x hx t ht
      rw [hf] at hx
      have hxw : x ≠ w := by
        intro e
        subst e
        exact not_mem_setDel_self hwf.members_nodup x hx
      have hx2 : x ∈ rs.m_filters := mem_of_mem_setDel hx
      rw [hb t]
      by_cases htw : t ∈ w.event_codes
      · rw [if_pos htw]
        exact (mem_removeW_of_ne hxw).2 (hwf.bucket_complete x hx2 t ht)
      · rw [if_neg htw]
        exact hwf.bucket_complete x hx2 t ht
    · intro x hx
      rw [hc] at hx
      exact hwf.catch_codes x hx
    · intro x
      rw [hf, hc]
      by_cases hxw : x = w
      · subst hxw
        constructor
        · intro hx
          exact absurd hx (not_mem_setDel_self hwf.members_nodup x)
        · rintro (⟨t, hmem⟩ | hca)
          · rw [hb t] at hmem
            by_cases htw : t ∈ x.event_codes
            · rw [if_pos htw] at hmem
              exact absurd hmem (not_mem_setDel_self (hwf.bucket_nodup t) x)
            · rw [if_neg htw] at hmem
              exact absurd (hwf.bucket_codes t x hmem) htw
          · exact absurd hca hnotca
      · rw [mem_setDel_of_ne hxw, hwf.members_iff x]
        constructor
        · rintro (⟨t, hmem⟩ | hca)
          · refine Or.inl ⟨t, ?_⟩
            rw [hb t]
            by_cases htw : t ∈ w.event_codes
            · rw [if_pos htw]
              exact (mem_removeW_of_ne hxw).2 hmem
            · rw [if_neg htw]
              exact hmem
          · exact Or.inr hca
        · rintro (⟨t, hmem⟩ | hca)
          · rw [hb t] at hmem
            by_cases htw : t ∈ w.event_codes
            · rw [if_pos htw] at hmem
              exact Or.inl ⟨t, mem_of_mem_removeW hmem⟩
            · rw [if_neg htw] at hmem
              exact Or.inl ⟨t, hmem⟩
          · exact Or.inr hca
    · intro t
      rw [hb t]
      split
      · exact removeW_nodup (hwf.bucket_nodup t) w
      · exact hwf.bucket_nodup t
    · rw [hc]
      exact hwf.catch_nodup
    · rw [hf]
      exact setDel_nodup hwf.members_nodup w

/-! ### No-op behavior of re-insertion and absent removal -/

theorem rulesetFilters_ext {a b : RulesetFilters}
    (h1 : a.m_filter_by_event_type = b.m_filter_by_event_type)
    (h2 : a.m_filter_all_event_types = b.m_filter_all_event_types)
    (h3 : a.m_filters = b.m_filters) : a = b := by
  cases a
  cases b
  simp_all

theorem foldl_growAdd_of_mem (codes : List Nat) (bs : List FilterWrapperList)
    (w : FilterWrapper) (h : ∀ e ∈ codes, e < bs.length ∧ w ∈ bucketAt bs e) :
    codes.foldl (fun b e => growAddBucket b w e) bs = bs := by
  induction codes with
  | nil => rfl
  | cons e rest ih =>
    have he := h e (List.mem_cons_self e rest)
    have hne : ¬ bs.length ≤ e := Nat.not_le.2 he.1
    have hstep : growAddBucket bs w e = bs := by
      simp only [growAddBucket, if_neg hne]
      rw [show add_wrapper_to_list (bucketAt bs e) w = bucketAt bs e from
        setIns_eq_of_mem he.2]
      exact set_getD_refl bs e [] he.1
    rw [List.foldl_cons, hstep]
    exact ih (fun x hx => h x (List.mem_cons_of_mem e hx))

theorem foldl_removeBucket_of_not_mem (codes : List Nat)
    (bs : List FilterWrapperList) (w : FilterWrapper)
    (h : ∀ t, w ∉ bucketAt bs t) :
    codes.foldl (fun b e => removeBucket b w e) bs = bs := by
  induction codes with
  | nil => rfl
  | cons e rest ih =>
    have hstep : removeBucket bs w e = bs := by
      unfold removeBucket
      split
      · next hlt =>
        rw [show remove_wrapper_from_list (bucketAt bs e) w = bucketAt bs e from
          setDel_of_not_mem (h e)]
        exact set_getD_refl bs e [] hlt
      · rfl
    rw [List.foldl_cons, hstep, ih]

theorem add_filter_of_mem {rs : RulesetFilters} (hwf : WfIndex rs)
    {w : FilterWrapper} (hmem : w ∈ rs.m_filters) : rs.add_filter w = rs := by
  apply rulesetFilters_ext
  · by_cases hempty : w.event_codes = []
    · simp only [RulesetFilters.add_filter, if_pos hempty]
    · simp only [RulesetFilters.add_filter, if_neg hempty]
      apply foldl_growAdd_of_mem
      intro e he
      have hbk := hwf.bucket_complete w hmem e he
      refine ⟨?_, hbk⟩
      by_contra hge
      rw [bucketAt, List.getD_eq_default _ _ (Nat.le_of_not_lt hge)] at hbk
      simp at hbk
  · rw [add_filter_catch]
    split
    · next hempty =>
      have hca : w ∈ rs.m_filter_all_event_types := by
        rcases (hwf.members_iff w).1 hmem with ⟨t, hbk⟩ | hca
        · have ht := hwf.bucket_codes t w hbk
          rw [hempty] at ht
          simp at ht
        · exact hca
      exact setIns_eq_of_mem hca
    · rfl
  · rw [add_filter_m_filters]
    exact setIns_eq_of_mem hmem

theorem remove_filter_of_not_mem {rs : RulesetFilters} (hwf : WfIndex rs)
    {w : FilterWrapper} (hmem : w ∉ rs.m_filters) : rs.remove_filter w = rs := by
  have hnbk : ∀ t, w ∉ bucketAt rs.m_filter_by_event_type t := by
    intro t hbk
    exact hmem ((hwf.members_iff w).2 (Or.inl ⟨t, hbk⟩))
  have hnca : w ∉ rs.m_filter_all_event_types := by
    intro hca
    exact hmem ((hwf.members_iff w).2 (Or.inr hca))
  apply rulesetFilters_ext
  · by_cases hempty : w.event_codes = []
    · simp only [RulesetFilters.remove_filter, if_pos hempty]
    · simp only [RulesetFilters.remove_filter, if_neg hempty]
      exact foldl_removeBucket_of_not_mem _ _ _ hnbk
  · rw [remove_filter_catch]
    split
    · exact setDel_of_not_mem hnca
    · rfl
  · rw [remove_filter_m_filters]
    exact setDel_of_not_mem hmem

/-! ### Characterizations of the run loops -/

theorem bucketAt_of_le {bs : List FilterWrapperList} {t : Nat}
    (h : bs.length ≤ t) : bucketAt bs t = [] :=
  List.getD_eq_default _ _ h

theorem lt_of_bucketAt_ne_nil {bs : List FilterWrapperList} {t : Nat}
    (h : bucketAt bs t ≠ []) : t < bs.length := by
  by_contra hge
  exact h (bucketAt_of_le (Nat.le_of_not_lt hge))

theorem runFirst_trace_sub (env : Nat → Event → Bool) (evt : Event)
    (ws : FilterWrapperList) : ∀ x ∈ (runFirst env evt ws).2, x ∈ ws := by
  induction ws with
  | nil => simp [runFirst]
  | cons w rest ih =>
    intro x hx
    cases hb : env w.filter evt with
    | true =>
      simp only [runFirst, hb, if_true] at hx
      simp only [List.mem_singleton] at hx
      exact hx ▸ List.mem_cons_self w rest
    | false =>
      simp only [runFirst, hb, if_false] at hx
      rcases List.mem_cons.1 hx with rfl | hx
      · exact List.mem_cons_self x rest
      · exact List.mem_cons_of_mem w (ih x hx)

theorem runFirst_eq_spec (env : Nat → Event → Bool) (evt : Event)
    (ws : FilterWrapperList) :
    runFirst env evt ws =
      match ws.find? (fun w => env w.filter evt) with
      | some w =>
        (some w.rule, ws.takeWhile (fun x => !(env x.filter evt)) ++ [w])
      | none => (none, ws) := by
  induction ws with
  | nil => rfl
  | cons w rest ih =>
    cases hb : env w.filter evt with
    | true =>
      simp only [runFirst, hb, if_true, List.find?_cons]
      simp [hb, List.takeWhile_cons]
    | false =>
      cases hfind : rest.find? (fun x => env x.filter evt) with
      | some u =>
        simp only [runFirst, hb, if_false, ih, hfind, List.find?_cons]
        simp [List.takeWhile_cons, hb]
      | none =>
        simp only [runFirst, hb, if_false, ih, hfind, List.find?_cons]
        simp [hb]

theorem runAllLoop_trace (env : Nat → Event → Bool) (evt : Event)
    (ws : FilterWrapperList) (acc : List FalcoRule) (found : Bool) :
    (runAllLoop env evt ws acc found).2.2 = ws := by
  induction ws generalizing acc found with
  | nil => rfl
  | cons w rest ih =>
    cases hb : env w.filter evt <;> simp [runAllLoop, hb, ih]

theorem runAllLoop_matches (env : Nat → Event → Bool) (evt : Event)
    (ws : FilterWrapperList) (acc : List FalcoRule) (found : Bool) :
    (runAllLoop env evt ws acc found).2.1 =
      acc ++ (ws.filter (fun w => env w.filter evt)).map (fun w => w.rule) := by
  induction ws generalizing acc found with
  | nil => simp [runAllLoop]
  | cons w rest ih =>
    cases hb : env w.filter evt <;>
      simp [runAllLoop, hb, ih, List.filter_cons]

theorem runAllLoop_found (env : Nat → Event → Bool) (evt : Event)
    (ws : FilterWrapperList) (acc : List FalcoRule) (found : Bool) :
    (runAllLoop env evt ws acc found).1 =
      (found || ws.any (fun w => env w.filter evt)) := by
  induction ws generalizing acc found with
  | nil => simp [runAllLoop]
  | cons w rest ih =>
    cases hb : env w.filter evt <;>
      simp [runAllLoop, hb, ih, List.any_cons]

/-! ### Pattern matching characterizations -/

theorem isPrefixOf_rfl (l : List Char) : l.isPrefixOf l = true := by
  induction l with
  | nil => rfl
  | cons a t ih => simp [List.isPrefixOf, ih]

theorem isPrefixOf_length_eq (a b : List Char) (h : a.isPrefixOf b = true)
    (hl : a.length = b.length) : a = b := by
  induction a generalizing b with
  | nil =>
    cases b with
    | nil => rfl
    | cons y ys => simp at hl
  | cons x xs ih =>
    cases b with
    | nil => simp [List.isPrefixOf] at h
    | cons y ys =>
      simp only [List.isPrefixOf, Bool.and_eq_true, beq_iff_eq] at h
      simp only [List.length_cons, Nat.succ.injEq] at hl
      rw [h.1, ih ys h.2 hl]

theorem findSub_eq_zero_iff (hay pat : List Char) :
    findSub hay pat = some 0 ↔ pat.isPrefixOf hay = true := by
  by_cases hp : pat.isPrefixOf hay = true
  · cases hay with
    | nil => simp [findSub, hp]
    | cons a t => simp [findSub, hp]
  · simp only [hp, iff_false]
    cases hay with
    | nil => simp [findSub, hp]
    | cons a t =>
      simp only [findSub, hp, if_false]
      cases hft : findSub t pat <;> simp [hft]

theorem findSub_ne_none_iff (hay pat : List Char) :
    findSub hay pat ≠ none ↔ ∃ i, pat.isPrefixOf (hay.drop i) = true := by
  induction hay with
  | nil =>
    constructor
    · intro h
      by_cases hp : pat.isPrefixOf [] = true
      · exact ⟨0, by simpa using hp⟩
      · exact absurd (by simp [findSub, hp]) h
    · rintro ⟨i, hi⟩
      rw [List.drop_nil] at hi
      intro hnone
      simp [findSub, hi] at hnone
  | cons a t ih =>
    by_cases hp : pat.isPrefixOf (a :: t) = true
    · constructor
      · intro _
        exact ⟨0, by simpa using hp⟩
      · intro _
        simp [findSub, hp]
    · constructor
      · intro h
        have h2 : findSub t pat ≠ none := by
          intro he
          apply h
          simp [findSub, hp, he]
        rcases ih.1 h2 with ⟨i, hi⟩
        exact ⟨i + 1, by simpa using hi⟩
      · rintro ⟨i, hi⟩
        cases i with
        | zero =>
          rw [List.drop_zero] at hi
          exact absurd hi hp
        | succ j =>
          have hj : pat.isPrefixOf (t.drop j) = true := by simpa using hi
          have h2 := ih.2 ⟨j, hj⟩
          intro hnone
          apply h2
          simpa [findSub, hp, Option.map_eq_none'] using hnone

theorem ruleMatches_exact_iff (wc : String → String → Bool)
    (pattern name : String) :
    ruleMatches wc pattern .exact name = true ↔
      (pattern = "" ∨ name = pattern) := by
  simp only [ruleMatches, Bool.or_eq_true, Bool.and_eq_true, decide_eq_true_eq]
  constructor
  · rintro (h | ⟨hfind, hlen⟩)
    · exact Or.inl h
    · right
      have hpre := (findSub_eq_zero_iff _ _).1 hfind
      have hdata : pattern.toList = name.toList :=
        isPrefixOf_length_eq _ _ hpre hlen
      exact (String.ext hdata).symm
  · rintro (h | h)
    · exact Or.inl h
    · right
      rw [h]
      exact ⟨(findSub_eq_zero_iff _ _).2 (isPrefixOf_rfl _), rfl⟩

theorem ruleMatches_substring_iff (wc : String → String → Bool)
    (pattern name : String) :
    ruleMatches wc pattern .substring name = true ↔
      (pattern = "" ∨
        ∃ i, pattern.toList.isPrefixOf (name.toList.drop i) = true) := by
  simp only [ruleMatches, Bool.or_eq_true, decide_eq_true_eq]
  rw [show strFind name pattern = findSub name.toList pattern.toList from rfl,
    findSub_ne_none_iff]

theorem tagsIntersect_iff (tags ruleTags : List String) :
    tagsIntersect tags ruleTags = true ↔ ∃ t, t ∈ tags ∧ t ∈ ruleTags := by
  simp only [tagsIntersect, List.any_eq_true, decide_eq_true_eq]

/-! ### Ruleset vector growth and the enable/disable fold -/

theorem growRulesets_length (l : List RulesetFilters) (i : Nat) :
    (growRulesets l i).length = max l.length (i + 1) := by
  simp only [growRulesets, List.length_append, List.length_replicate]
  omega

theorem growRulesets_getD (l : List RulesetFilters) (i j : Nat) :
    (growRulesets l i).getD j emptyRS = l.getD j emptyRS :=
  getD_append_rep ..

theorem lt_growRulesets_length (l : List RulesetFilters) (i : Nat) :
    i < (growRulesets l i).length := by
  rw [growRulesets_length]
  omega

theorem foldl_set_ed_length (ws : FilterWrapperList) (rss : List RulesetFilters)
    (i : Nat) (c : FilterWrapper → Bool) (enabled : Bool) :
    (ws.foldl (fun rss w => if c w then
        rss.set i (if enabled then RulesetFilters.add_filter (rss.getD i emptyRS) w
          else RulesetFilters.remove_filter (rss.getD i emptyRS) w)
      else rss) rss).length = rss.length := by
  induction ws generalizing rss with
  | nil => rfl
  | cons w rest ih =>
    simp only [List.foldl_cons]
    by_cases hc : c w
    · rw [if_pos hc, ih]
      simp
    · rw [if_neg hc, ih]

theorem foldl_set_ed_getD_eq (ws : FilterWrapperList)
    (rss : List RulesetFilters) (i : Nat) (c : FilterWrapper → Bool)
    (enabled : Bool) (hi : i < rss.length) :
    (ws.foldl (fun rss w => if c w then
        rss.set i (if enabled then RulesetFilters.add_filter (rss.getD i emptyRS) w
          else RulesetFilters.remove_filter (rss.getD i emptyRS) w)
      else rss) rss).getD i emptyRS =
    ws.foldl (fun rs w => if c w then
        (if enabled then rs.add_filter w else rs.remove_filter w) else rs)
      (rss.getD i emptyRS) := by
  induction ws generalizing rss with
  | nil => rfl
  | cons w rest ih =>
    simp only [List.foldl_cons]
    by_cases hc : c w
    · rw [if_pos hc, if_pos hc]
      have hi2 : i < (rss.set i (if enabled then
          RulesetFilters.add_filter (rss.getD i emptyRS) w
          else RulesetFilters.remove_filter (rss.getD i emptyRS) w)).length := by
        simpa using hi
      rw [ih _ hi2, getD_set_self _ _ _ _ hi]
    · rw [if_neg hc, if_neg hc]
      exact ih _ hi

theorem foldl_set_ed_getD_ne (ws : FilterWrapperList)
    (rss : List RulesetFilters) (i j : Nat) (c : FilterWrapper → Bool)
    (enabled : Bool) (hj : j ≠ i) :
    (ws.foldl (fun rss w => if c w then
        rss.set i (if enabled then RulesetFilters.add_filter (rss.getD i emptyRS) w
          else RulesetFilters.remove_filter (rss.getD i emptyRS) w)
      else rss) rss).getD j emptyRS = rss.getD j emptyRS := by
  induction ws generalizing rss with
  | nil => rfl
  | cons w rest ih =>
    simp only [List.foldl_cons]
    by_cases hc : c w
    · rw [if_pos hc, ih]
      exact getD_set_ne _ _ _ _ _ hj
    · rw [if_neg hc]
      exact ih _

theorem enable_disable_getD_eq (wc : String → String → Bool)
    (st : EvttypeIndexRuleset) (pattern : String) (m : match_type)
    (enabled : Bool) (ruleset_id : Nat) :
    (st.enable_disable wc pattern m enabled ruleset_id).m_rulesets.getD
        ruleset_id emptyRS =
      st.m_filters.foldl (fun rs w =>
        if ruleMatches wc pattern m w.rule.name then
          (if enabled then rs.add_filter w else rs.remove_filter w) else rs)
        (st.m_rulesets.getD ruleset_id emptyRS) := by
  simp only [EvttypeIndexRuleset.enable_disable]
  have h := foldl_set_ed_getD_eq st.m_filters
    (growRulesets st.m_rulesets ruleset_id) ruleset_id
    (fun w => ruleMatches wc pattern m w.rule.name) enabled
    (lt_growRulesets_length _ _)
  rw [growRulesets_getD] at h
  exact h

theorem enable_disable_getD_ne (wc : String → String → Bool)
    (st : EvttypeIndexRuleset) (pattern : String) (m : match_type)
    (enabled : Bool) (ruleset_id j : Nat) (hj : j ≠ ruleset_id) :
    (st.enable_disable wc pattern m enabled ruleset_id).m_rulesets.getD
        j emptyRS = st.m_rulesets.getD j emptyRS := by
  simp only [EvttypeIndexRuleset.enable_disable]
  have h := foldl_set_ed_getD_ne st.m_filters
    (growRulesets st.m_rulesets ruleset_id) ruleset_id j
    (fun w => ruleMatches wc pattern m w.rule.name) enabled hj
  rw [growRulesets_getD] at h
  exact h

theorem enable_disable_tags_getD_eq (st : EvttypeIndexRuleset)
    (tags : List String) (enabled : Bool) (ruleset_id : Nat) :
    (st.enable_disable_tags tags enabled ruleset_id).m_rulesets.getD
        ruleset_id emptyRS =
      st.m_filters.foldl (fun rs w =>
        if tagsIntersect tags w.rule.tags then
          (if enabled then rs.add_filter w else rs.remove_filter w) else rs)
        (st.m_rulesets.getD ruleset_id emptyRS) := by
  simp only [EvttypeIndexRuleset.enable_disable_tags]
  have h := foldl_set_ed_getD_eq st.m_filters
    (growRulesets st.m_rulesets ruleset_id) ruleset_id
    (fun w => tagsIntersect tags w.rule.tags) enabled
    (lt_growRulesets_length _ _)
  rw [growRulesets_getD] at h
  exact h

theorem enable_disable_tags_getD_ne (st : EvttypeIndexRuleset)
    (tags : List String) (enabled : Bool) (ruleset_id j : Nat)
    (hj : j ≠ ruleset_id) :
    (st.enable_disable_tags tags enabled ruleset_id).m_rulesets.getD
        j emptyRS = st.m_rulesets.getD j emptyRS := by
  simp only [EvttypeIndexRuleset.enable_disable_tags]
  have h := foldl_set_ed_getD_ne st.m_filters
    (growRulesets st.m_rulesets ruleset_id) ruleset_id j
    (fun w => tagsIntersect tags w.rule.tags) enabled hj
  rw [growRulesets_getD] at h
  exact h

/-! ### Single-match dispatch refines the spec algorithm -/

theorem run_single_eq_runOneSpec (env : Nat → Event → Bool)
    (rs : RulesetFilters) (evt : Event) :
    rs.run_single env evt =
      runOneSpec env evt (bucketAt rs.m_filter_by_event_type evt.etype)
        rs.m_filter_all_event_types := by
  unfold RulesetFilters.run_single runOneSpec
  by_cases hin : evt.etype < rs.m_filter_by_event_type.length
  · rw [if_pos hin]
    rw [runFirst_eq_spec, runFirst_eq_spec]
    cases hfind : (bucketAt rs.m_filter_by_event_type evt.etype).find?
        (fun w => env w.filter evt) with
    | some u => simp [hfind]
    | none =>
      cases hfind2 : rs.m_filter_all_event_types.find?
          (fun w => env w.filter evt) with
      | some v => simp [hfind, hfind2]
      | none => simp [hfind, hfind2]
  · rw [if_neg hin]
    rw [bucketAt_of_le (Nat.le_of_not_lt hin)]
    rw [runFirst_eq_spec]
    simp only [List.find?_nil]
    cases hfind2 : rs.m_filter_all_event_types.find?
        (fun w => env w.filter evt) with
    | some v => simp [hfind2]
    | none => simp [hfind2]

/-! ### Dispatch over an index with an empty catch-all list -/

theorem run_multi_trace_catch_nil (env : Nat → Event → Bool)
    (rs : RulesetFilters) (evt : Event) (matchList : List FalcoRule)
    (h : rs.m_filter_all_event_types = []) :
    (rs.run_multi env evt matchList).2.2 =
      bucketAt rs.m_filter_by_event_type evt.etype := by
  unfold RulesetFilters.run_multi
  rw [h]
  by_cases hin : evt.etype < rs.m_filter_by_event_type.length
  · rw [if_pos hin]
    cases hf : (runAllLoop env evt (bucketAt rs.m_filter_by_event_type evt.etype)
        matchList false).1 with
    | true => simp [hf, runAllLoop_trace]
    | false => simp [hf, runAllLoop, runAllLoop_trace]
  · rw [if_neg hin]
    simp [runAllLoop, bucketAt_of_le (Nat.le_of_not_lt hin)]

theorem run_single_trace_catch_nil (env : Nat → Event → Bool)
    (rs : RulesetFilters) (evt : Event)
    (h : rs.m_filter_all_event_types = []) :
    ∀ x ∈ (rs.run_single env evt).2,
      x ∈ bucketAt rs.m_filter_by_event_type evt.etype := by
  rw [run_single_eq_runOneSpec, runOneSpec, h]
  simp only [List.find?_nil]
  cases hfind : (bucketAt rs.m_filter_by_event_type evt.etype).find?
      (fun w => env w.filter evt) with
  | some u =>
    intro x hx
    simp only [hfind] at hx
    rcases List.mem_append.1 hx with hx | hx
    · exact (List.takeWhile_sublist _).subset hx
    · simp only [List.mem_singleton] at hx
      exact hx ▸ List.mem_of_find?_eq_some hfind
  | none =>
    intro x hx
    simp only [hfind] at hx
    simpa using hx

/-! ### Catch-all preservation through the enable/disable folds -/

theorem foldl_apply_catch_nil (ws : FilterWrapperList) (rs : RulesetFilters)
    (c : FilterWrapper → Bool) (enabled : Bool)
    (hw : ∀ w ∈ ws, w.event_codes ≠ [])
    (h0 : rs.m_filter_all_event_types = []) :
    (ws.foldl (fun rs w => if c w then
      (if enabled then rs.add_filter w else rs.remove_filter w) else rs)
      rs).m_filter_all_event_types = [] := by
  induction ws generalizing rs with
  | nil => exact h0
  | cons w rest ih =>
    simp only [List.foldl_cons]
    have hne := hw w (List.mem_cons_self w rest)
    have hw2 : ∀ x ∈ rest, x.event_codes ≠ [] :=
      fun x hx => hw x (List.mem_cons_of_mem w hx)
    refine ih _ hw2 ?_
    by_cases hc : c w
    · rw [if_pos hc]
      cases enabled with
      | true =>
        rw [if_pos rfl, add_filter_catch, if_neg hne]
        exact h0
      | false =>
        rw [if_neg (by simp), remove_filter_catch, if_neg hne]
        exact h0
    · rw [if_neg hc]
      exact h0

theorem add_m_rulesets (st : EvttypeIndexRuleset) (rule : FalcoRule)
    (filt : Nat) (analyze : Except String (List Nat × List Nat)) :
    (st.add rule filt analyze).1.m_rulesets = st.m_rulesets := by
  by_cases h : rule.source = syscall_source
  · simp only [EvttypeIndexRuleset.add, if_pos h]
    cases analyze with
    | error e => rfl
    | ok p =>
      obtain ⟨sc, ev⟩ := p
      rfl
  · simp only [EvttypeIndexRuleset.add, if_neg h]

theorem add_filters_async (st : EvttypeIndexRuleset) (rule : FalcoRule)
    (filt : Nat) (analyze : Except String (List Nat × List Nat)) :
    ∀ w ∈ (st.add rule filt analyze).1.m_filters,
      w ∈ st.m_filters ∨ PPME_ASYNCEVENT_E ∈ w.event_codes := by
  intro w hw
  by_cases h : rule.source = syscall_source
  · simp only [EvttypeIndexRuleset.add, if_pos h] at hw
    cases analyze with
    | error e => exact Or.inl hw
    | ok p =>
      obtain ⟨sc, ev⟩ := p
      simp only at hw
      rcases (mem_setIns _ _ _).1 hw with hw | rfl
      · exact Or.inl hw
      · exact Or.inr (show PPME_ASYNCEVENT_E ∈ setIns ev PPME_ASYNCEVENT_E from
          mem_setIns_self _ _)
  · simp only [EvttypeIndexRuleset.add, if_neg h] at hw
    rcases (mem_setIns _ _ _).1 hw with hw | rfl
    · exact Or.inl hw
    · exact Or.inr (show PPME_ASYNCEVENT_E ∈
          setIns [PPME_PLUGINEVENT_E] PPME_ASYNCEVENT_E from mem_setIns_self _ _)

theorem run_single_emptyRS (env : Nat → Event → Bool) (evt : Event) :
    RulesetFilters.run_single env emptyRS evt = (none, []) := rfl

theorem run_multi_emptyRS (env : Nat → Event → Bool) (evt : Event)
    (matchList : List FalcoRule) :
    RulesetFilters.run_multi env emptyRS evt matchList =
      (false, matchList, []) := rfl

theorem clear_getD (st : EvttypeIndexRuleset) (j : Nat) :
    st.clear.m_rulesets.getD j emptyRS = emptyRS := by
  simp only [EvttypeIndexRuleset.clear]
  exact getD_map_const ..

/-! ### Concrete fixtures used by the witness theorems -/

/-- A predicate environment where every predicate matches. -/
def envTrue : Nat → Event → Bool := fun _ _ => true

def evt5 : Event := { etype := 5 }

def ruleE1 : FalcoRule := { name := "E1", tags := ["net", "fs"], source := "syscall" }

def ruleE3 : FalcoRule := { name := "E3", tags := ["gui"], source := "syscall" }

def w5a : FilterWrapper :=
  { id := 1, rule := ruleE1, filter := 1, sc_codes := [], event_codes := [5] }

def w5b : FilterWrapper :=
  { id := 3, rule := ruleE3, filter := 3, sc_codes := [], event_codes := [5] }

/-- An index holding two type-5 entries. -/
def rsW : RulesetFilters := (emptyRS.add_filter w5a).add_filter w5b

/-- A registry holding the two type-5 entries globally and no ruleset yet. -/
def regW : EvttypeIndexRuleset :=
  { m_filters := [w5a, w5b], m_rulesets := [], next_id := 4 }

def wcFalse : String → String → Bool := fun _ _ => false

/-! ### The claims -/

/-- C1: in the all-matches form of `ruleset_filters::run`, for every event
whose type-code bucket holds at least one entry with a true predicate, the
call returns true, the output sequence is the input sequence extended by
exactly the rules of the true-predicate entries of that bucket in bucket
insertion order, and the evaluation trace is exactly the bucket: the
catch-all list is never consulted and no catch-all rule is appended, so
catch-all entries are evaluated and appended only when no type-specific
entry matched. -/
theorem C1_run_multi_short_circuit (env : Nat → Event → Bool)
    (rs : RulesetFilters) (evt : Event) (matchList : List FalcoRule)
    (hex : ∃ w ∈ bucketAt rs.m_filter_by_event_type evt.etype,
      env w.filter evt = true) :
    rs.run_multi env evt matchList =
      (true,
       matchList ++ ((bucketAt rs.m_filter_by_event_type evt.etype).filter
         (fun w => env w.filter evt)).map (fun w => w.rule),
       bucketAt rs.m_filter_by_event_type evt.etype) := by
  obtain ⟨w0, hw0, hp0⟩ := hex
  have hne : bucketAt rs.m_filter_by_event_type evt.etype ≠ [] :=
    List.ne_nil_of_mem hw0
  have hin : evt.etype < rs.m_filter_by_event_type.length :=
    lt_of_bucketAt_ne_nil hne
  have hany : (bucketAt rs.m_filter_by_event_type evt.etype).any
      (fun w => env w.filter evt) = true :=
    List.any_eq_true.2 ⟨w0, hw0, hp0⟩
  have hfound : (runAllLoop env evt
      (bucketAt rs.m_filter_by_event_type evt.etype) matchList false).1 = true := by
    rw [runAllLoop_found, hany, Bool.or_true]
  have hL : runAllLoop env evt (bucketAt rs.m_filter_by_event_type evt.etype)
      matchList false =
      (true,
       matchList ++ ((bucketAt rs.m_filter_by_event_type evt.etype).filter
         (fun w => env w.filter evt)).map (fun w => w.rule),
       bucketAt rs.m_filter_by_event_type evt.etype) := by
    rw [show runAllLoop env evt (bucketAt rs.m_filter_by_event_type evt.etype)
          matchList false =
        ((runAllLoop env evt (bucketAt rs.m_filter_by_event_type evt.etype)
          matchList false).1,
         (runAllLoop env evt (bucketAt rs.m_filter_by_event_type evt.etype)
          matchList false).2.1,
         (runAllLoop env evt (bucketAt rs.m_filter_by_event_type evt.etype)
          matchList false).2.2) from rfl]
    rw [hfound, runAllLoop_matches, runAllLoop_trace]
  unfold RulesetFilters.run_multi
  rw [if_pos hin, hL]
  simp

/-- C2: the single-match form of `ruleset_filters::run` coincides with the
spec §4.3 algorithm `runOneSpec`: scan the event's bucket (empty when the type
code is out of range) in order, the first true predicate yields its rule and
returns immediately, evaluating no further entry; only if no bucket entry
matched is the catch-all list scanned likewise; otherwise no match.  The trace
component records exactly which entries were evaluated. -/
theorem C2_run_single_spec (env : Nat → Event → Bool) (rs : RulesetFilters)
    (evt : Event) :
    rs.run_single env evt =
      runOneSpec env evt (bucketAt rs.m_filter_by_event_type evt.etype)
        rs.m_filter_all_event_types :=
  run_single_eq_runOneSpec env rs evt

/-- C3: `evttype_index_ruleset::add` derives the code sets as specified: a
non-syscall (plugin-origin) rule gets empty `sc_codes` and `event_codes`
exactly {plugin-event, async-event} regardless of the analyzer outcome, while
a syscall-origin rule gets the analyzer results with the async-event code
inserted; in both cases the async-event code is a member of `event_codes`. -/
theorem C3_add_derivation (st : EvttypeIndexRuleset) (rule : FalcoRule)
    (filt : Nat) (analyze : Except String (List Nat × List Nat))
    (sc ev : List Nat) :
    (rule.source ≠ syscall_source →
      ∃ w, (st.add rule filt analyze).1.m_filters = setIns st.m_filters w ∧
        w.sc_codes = [] ∧
        (∀ c, c ∈ w.event_codes ↔
          (c = PPME_PLUGINEVENT_E ∨ c = PPME_ASYNCEVENT_E)) ∧
        PPME_ASYNCEVENT_E ∈ w.event_codes) ∧
    (rule.source = syscall_source →
      ∃ w, (st.add rule filt (Except.ok (sc, ev))).1.m_filters =
          setIns st.m_filters w ∧
        w.sc_codes = sc ∧
        (∀ c, c ∈ w.event_codes ↔ (c ∈ ev ∨ c = PPME_ASYNCEVENT_E)) ∧
        PPME_ASYNCEVENT_E ∈ w.event_codes) := by
  constructor
  · intro h
    refine ⟨⟨st.next_id, rule, filt, [],
      setIns [PPME_PLUGINEVENT_E] PPME_ASYNCEVENT_E⟩, ?_, rfl, ?_, ?_⟩
    · simp only [EvttypeIndexRuleset.add, if_neg h]
    · intro c
      show c ∈ setIns [PPME_PLUGINEVENT_E] PPME_ASYNCEVENT_E ↔ _
      rw [mem_setIns]
      simp
    · exact show PPME_ASYNCEVENT_E ∈
        setIns [PPME_PLUGINEVENT_E] PPME_ASYNCEVENT_E from mem_setIns_self _ _
  · intro h
    refine ⟨⟨st.next_id, rule, filt, sc,
      setIns ev PPME_ASYNCEVENT_E⟩, ?_, rfl, ?_, ?_⟩
    · simp only [EvttypeIndexRuleset.add, if_pos h]
    · intro c
      show c ∈ setIns ev PPME_ASYNCEVENT_E ↔ _
      rw [mem_setIns]
    · exact show PPME_ASYNCEVENT_E ∈ setIns ev PPME_ASYNCEVENT_E from
        mem_setIns_self _ _

/-- C4: when the condition analyzer fails during `add` for a syscall-source
rule, `add` re-signals an error carrying the underlying cause and the registry
is exactly as before the call: no entry is inserted and no RulesetIndex is
touched (atomic failure). -/
theorem C4_add_error_atomic (st : EvttypeIndexRuleset) (rule : FalcoRule)
    (filt : Nat) (e : String) (hsrc : rule.source = syscall_source) :
    st.add rule filt (Except.error e) = (st, some e) := by
  simp only [EvttypeIndexRuleset.add, if_pos hsrc]

/-- C5: `enable_disable` selects an entry in exact mode iff the pattern is
empty or the rule name equals the pattern, and in substring mode iff the
pattern is empty or it occurs contiguously anywhere within the name; every
selected entry is added to (enable) or removed from (disable) the index of the
given ruleset id, in global order, and the index of every other ruleset id is
left exactly as it was. -/
theorem C5_enable_disable_selection (wc : String → String → Bool)
    (st : EvttypeIndexRuleset) (pattern : String) (m : match_type)
    (enabled : Bool) (ruleset_id : Nat) :
    (∀ name, ruleMatches wc pattern .exact name = true ↔
      (pattern = "" ∨ name = pattern)) ∧
    (∀ name, ruleMatches wc pattern .substring name = true ↔
      (pattern = "" ∨
        ∃ i, pattern.toList.isPrefixOf (name.toList.drop i) = true)) ∧
    ((st.enable_disable wc pattern m enabled ruleset_id).m_rulesets.getD
        ruleset_id emptyRS =
      st.m_filters.foldl (fun rs w =>
        if ruleMatches wc pattern m w.rule.name then
          (if enabled then rs.add_filter w else rs.remove_filter w) else rs)
        (st.m_rulesets.getD ruleset_id emptyRS)) ∧
    (∀ j, j ≠ ruleset_id →
      (st.enable_disable wc pattern m enabled ruleset_id).m_rulesets.getD
          j emptyRS =
        st.m_rulesets.getD j emptyRS) :=
  ⟨fun name => ruleMatches_exact_iff wc pattern name,
   fun name => ruleMatches_substring_iff wc pattern name,
   enable_disable_getD_eq wc st pattern m enabled ruleset_id,
   fun j hj => enable_disable_getD_ne wc st pattern m enabled ruleset_id j hj⟩

/-- C6: `enable_disable_tags` adds an entry to (enable) or removes it from
(disable) the index of the given ruleset id iff the input tag set meets the
rule's tag set, in global order; entries with empty intersection and every
other ruleset id's index are left untouched. -/
theorem C6_enable_disable_tags_selection (st : EvttypeIndexRuleset)
    (tags : List String) (enabled : Bool) (ruleset_id : Nat) :
    (∀ rtags, tagsIntersect tags rtags = true ↔
      ∃ t, t ∈ tags ∧ t ∈ rtags) ∧
    ((st.enable_disable_tags tags enabled ruleset_id).m_rulesets.getD
        ruleset_id emptyRS =
      st.m_filters.foldl (fun rs w =>
        if tagsIntersect tags w.rule.tags then
          (if enabled then rs.add_filter w else rs.remove_filter w) else rs)
        (st.m_rulesets.getD ruleset_id emptyRS)) ∧
    (∀ j, j ≠ ruleset_id →
      (st.enable_disable_tags tags enabled ruleset_id).m_rulesets.getD
          j emptyRS =
        st.m_rulesets.getD j emptyRS) :=
  ⟨fun rtags => tagsIntersect_iff tags rtags,
   enable_disable_tags_getD_eq st tags enabled ruleset_id,
   fun j hj => enable_disable_tags_getD_ne st tags enabled ruleset_id j hj⟩

/-- C7: the RulesetIndex invariant `WfIndex` (buckets listed in `event_codes`,
bucket completeness, catch-all = empty-sentinel entries, membership iff
appearing in a bucket or catch-all, no duplicates in any sequence) holds of a
fresh index and is preserved by every `add_filter` and `remove_filter`; adding
an already-present entry and removing an absent one leave the index exactly
unchanged. -/
theorem C7_index_invariant (rs : RulesetFilters) (w : FilterWrapper)
    (hwf : WfIndex rs) :
    WfIndex emptyRS ∧
    WfIndex (rs.add_filter w) ∧ WfIndex (rs.remove_filter w) ∧
    (w ∈ rs.m_filters → rs.add_filter w = rs) ∧
    (w ∉ rs.m_filters → rs.remove_filter w = rs) :=
  ⟨wfIndex_empty, wfIndex_add_filter hwf w, wfIndex_remove_filter hwf w,
   fun h => add_filter_of_mem hwf h, fun h => remove_filter_of_not_mem hwf h⟩

/-- C8: both registry-level run forms report no match for a ruleset id beyond
the current size of `m_rulesets`, without growing the vector, without touching
any registry state, and leaving the caller's output slot / output sequence
exactly as passed in. -/
theorem C8_run_out_of_range (env : Nat → Event → Bool)
    (st : EvttypeIndexRuleset) (evt : Event) (ruleset_id : Nat)
    (match0 : FalcoRule) (matchList : List FalcoRule)
    (h : st.m_rulesets.length < ruleset_id + 1) :
    EvttypeIndexRuleset.run_single env st evt ruleset_id match0 =
      (st, false, match0) ∧
    EvttypeIndexRuleset.run_multi env st evt ruleset_id matchList =
      (st, false, matchList) := by
  constructor
  · simp only [EvttypeIndexRuleset.run_single, if_pos h]
  · simp only [EvttypeIndexRuleset.run_multi, if_pos h]

/-- C9: after `clear`, the global entry set is empty, every ruleset id reports
`enabled_count = 0`, and both run forms report no match for every event and
every ruleset id, leaving the output untouched. -/
theorem C9_clear_resets (st : EvttypeIndexRuleset) (ruleset_id : Nat)
    (env : Nat → Event → Bool) (evt : Event) (match0 : FalcoRule)
    (matchList : List FalcoRule) :
    st.clear.m_filters = [] ∧
    (st.clear.enabled_count ruleset_id).2 = 0 ∧
    EvttypeIndexRuleset.run_single env st.clear evt ruleset_id match0 =
      (st.clear, false, match0) ∧
    EvttypeIndexRuleset.run_multi env st.clear evt ruleset_id matchList =
      (st.clear, false, matchList) := by
  refine ⟨rfl, ?_, ?_, ?_⟩
  · simp only [EvttypeIndexRuleset.enabled_count]
    rw [growRulesets_getD, clear_getD]
    rfl
  · by_cases h : st.clear.m_rulesets.length < ruleset_id + 1
    · simp only [EvttypeIndexRuleset.run_single, if_pos h]
    · simp only [EvttypeIndexRuleset.run_single, if_neg h]
      rw [clear_getD, run_single_emptyRS]
  · by_cases h : st.clear.m_rulesets.length < ruleset_id + 1
    · simp only [EvttypeIndexRuleset.run_multi, if_pos h]
    · simp only [EvttypeIndexRuleset.run_multi, if_neg h]
      rw [clear_getD, run_multi_emptyRS]

/-- All registered entries have non-empty `event_codes` and every ruleset
index (present or defaulted) has an empty catch-all list. -/
def CatchAllFree (st : EvttypeIndexRuleset) : Prop :=
  (∀ w ∈ st.m_filters, w.event_codes ≠ []) ∧
  (∀ j, (st.m_rulesets.getD j emptyRS).m_filter_all_event_types = [])

/-- C10: every FilterEntry that `add` creates carries the async-event code, so
its `event_codes` is non-empty; hence a registry whose entries all come from
`add` keeps every index's catch-all list empty through `add`, `enable/disable`
and `enable/disable_tags`, and dispatch over an index with an empty catch-all
list never evaluates a catch-all entry: the all-matches trace is exactly the
event's bucket and every entry the single-match form evaluates lies in that
bucket. -/
theorem C10_catch_all_stays_empty (st : EvttypeIndexRuleset) (rule : FalcoRule)
    (filt : Nat) (analyze : Except String (List Nat × List Nat))
    (wc : String → String → Bool) (pattern : String) (m : match_type)
    (tags : List String) (enabled : Bool) (ruleset_id : Nat)
    (env : Nat → Event → Bool) (evt : Event) (matchList : List FalcoRule)
    (rs : RulesetFilters) (hfree : CatchAllFree st)
    (hca : rs.m_filter_all_event_types = []) :
    (∀ w ∈ (st.add rule filt analyze).1.m_filters,
       w ∈ st.m_filters ∨ PPME_ASYNCEVENT_E ∈ w.event_codes) ∧
    CatchAllFree (st.add rule filt analyze).1 ∧
    CatchAllFree (st.enable_disable wc pattern m enabled ruleset_id) ∧
    CatchAllFree (st.enable_disable_tags tags enabled ruleset_id) ∧
    ((rs.run_multi env evt matchList).2.2 =
      bucketAt rs.m_filter_by_event_type evt.etype) ∧
    (∀ x ∈ (rs.run_single env evt).2,
      x ∈ bucketAt rs.m_filter_by_event_type evt.etype) := by
  obtain ⟨hw, hrs⟩ := hfree
  refine ⟨add_filters_async st rule filt analyze, ⟨?_, ?_⟩, ⟨?_, ?_⟩, ⟨?_, ?_⟩,
    run_multi_trace_catch_nil env rs evt matchList hca,
    run_single_trace_catch_nil env rs evt hca⟩
  · intro w hwmem
    rcases add_filters_async st rule filt analyze w hwmem with h | h
    · exact hw w h
    · exact List.ne_nil_of_mem h
  · intro j
    rw [add_m_rulesets]
    exact hrs j
  · intro w hwmem
    exact hw w hwmem
  · intro j
    by_cases hj : j = ruleset_id
    · subst hj
      rw [enable_disable_getD_eq]
      exact foldl_apply_catch_nil _ _ _ _ hw (hrs j)
    · rw [enable_disable_getD_ne _ _ _ _ _ _ _ hj]
      exact hrs j
  · intro w hwmem
    exact hw w hwmem
  · intro j
    by_cases hj : j = ruleset_id
    · subst hj
      rw [enable_disable_tags_getD_eq]
      exact foldl_apply_catch_nil _ _ _ _ hw (hrs j)
    · rw [enable_disable_tags_getD_ne _ _ _ _ _ hj]
      exact hrs j

/-! ### Witnesses: the claim theorems applied at concrete inputs -/

def ruleP : FalcoRule := { name := "P", tags := [], source := "plugin" }

theorem catchAllFree_regW : CatchAllFree regW :=
  ⟨by decide, fun j => by cases j <;> rfl⟩

theorem C1_witness :
    (∃ w ∈ bucketAt rsW.m_filter_by_event_type evt5.etype,
      envTrue w.filter evt5 = true) ∧
    rsW.run_multi envTrue evt5 [] =
      (true,
       [] ++ ((bucketAt rsW.m_filter_by_event_type evt5.etype).filter
         (fun w => envTrue w.filter evt5)).map (fun w => w.rule),
       bucketAt rsW.m_filter_by_event_type evt5.etype) :=
  ⟨by decide, C1_run_multi_short_circuit envTrue rsW evt5 [] (by decide)⟩

theorem C3_witness :
    (ruleP.source ≠ syscall_source) ∧
    (∃ w, (regW.add ruleP 9 (Except.error "x")).1.m_filters =
        setIns regW.m_filters w ∧
      w.sc_codes = [] ∧
      (∀ c, c ∈ w.event_codes ↔
        (c = PPME_PLUGINEVENT_E ∨ c = PPME_ASYNCEVENT_E)) ∧
      PPME_ASYNCEVENT_E ∈ w.event_codes) :=
  ⟨by decide,
   (C3_add_derivation regW ruleP 9 (Except.error "x") [] []).1 (by decide)⟩

theorem C4_witness :
    ruleE1.source = syscall_source ∧
    regW.add ruleE1 9 (Except.error "boom") = (regW, some "boom") :=
  ⟨by decide, C4_add_error_atomic regW ruleE1 9 "boom" (by decide)⟩

theorem C5_witness :
    (1 ≠ 0) ∧
    ((regW.enable_disable wcFalse "E" .substring true 0).m_rulesets.getD
        1 emptyRS =
      regW.m_rulesets.getD 1 emptyRS) :=
  ⟨by decide,
   (C5_enable_disable_selection wcFalse regW "E" .substring true 0).2.2.2
     1 (by decide)⟩

theorem C6_witness :
    (1 ≠ 0) ∧
    ((regW.enable_disable_tags ["fs", "mem"] true 0).m_rulesets.getD
        1 emptyRS =
      regW.m_rulesets.getD 1 emptyRS) :=
  ⟨by decide,
   (C6_enable_disable_tags_selection regW ["fs", "mem"] true 0).2.2
     1 (by decide)⟩

theorem C7_witness :
    WfIndex emptyRS ∧
    (WfIndex emptyRS ∧
     WfIndex (emptyRS.add_filter w5a) ∧
     WfIndex (emptyRS.remove_filter w5a) ∧
     (w5a ∈ emptyRS.m_filters → emptyRS.add_filter w5a = emptyRS) ∧
     (w5a ∉ emptyRS.m_filters → emptyRS.remove_filter w5a = emptyRS)) :=
  ⟨wfIndex_empty, C7_index_invariant emptyRS w5a wfIndex_empty⟩

theorem C8_witness :
    (regW.m_rulesets.length < 2 + 1) ∧
    (EvttypeIndexRuleset.run_single envTrue regW evt5 2 ruleE1 =
      (regW, false, ruleE1) ∧
     EvttypeIndexRuleset.run_multi envTrue regW evt5 2 [] =
      (regW, false, [])) :=
  ⟨by decide, C8_run_out_of_range envTrue regW evt5 2 ruleE1 [] (by decide)⟩

theorem C10_witness :
    CatchAllFree regW ∧ rsW.m_filter_all_event_types = [] ∧
    ((∀ w ∈ (regW.add ruleE1 9 (Except.ok ([], [5]))).1.m_filters,
        w ∈ regW.m_filters ∨ PPME_ASYNCEVENT_E ∈ w.event_codes) ∧
     CatchAllFree (regW.add ruleE1 9 (Except.ok ([], [5]))).1 ∧
     CatchAllFree (regW.enable_disable wcFalse "" .exact true 0) ∧
     CatchAllFree (regW.enable_disable_tags ["fs"] true 0) ∧
     ((rsW.run_multi envTrue evt5 []).2.2 =
       bucketAt rsW.m_filter_by_event_type evt5.etype) ∧
     (∀ x ∈ (rsW.run_single envTrue evt5).2,
       x ∈ bucketAt rsW.m_filter_by_event_type evt5.etype)) :=
  ⟨catchAllFree_regW, by decide,
   C10_catch_all_stays_empty regW ruleE1 9 (Except.ok ([], [5])) wcFalse ""
     .exact ["fs"] true 0 envTrue evt5 [] rsW catchAllFree_regW (by decide)⟩

end EvttypeIndex
